import Mathlib

/-!
Verification of the Reduce hydrogenation plugin (`plugin/ReducePlugin.py`).

The development shallowly embeds the plugin's core: the position-key
quantizer `get_position_key`, the in-residue nearest-heavy-atom search
`get_closest_heavy_atom_in_residue`, the reconciliation loop
`match_and_update`, the subprocess adapter `call_Reduce` (with its
module-level accumulating output buffer made into explicit state), and
the batch driver `add_hydrogens`.

Modelling conventions:
- Python floats become exact rationals (`ℚ`).
- Python object identity becomes an explicit numeric identity field
  (`aid` on atoms, `bid` on bonds); freshly allocated objects take
  identities from an explicit counter threaded through the loop.
- `Vector3.distance` takes a square root, but the program only ever
  compares distances (`d < minD`, `dist > 2.0`); since squaring is
  monotone on nonnegative reals, the embedding compares squared
  distances throughout: the initial minimum `10000.0` becomes
  `10000.0^2 = 100000000` and the threshold `2.0` becomes `4`.
- Exceptions (the unchecked `atoms[id]` indexing) are modelled by
  `Option`: a raised `IndexError` is `none`.
- The engine subprocess is an oracle input (`EngineRun`: exit code and
  the chunks fed to the `on_output` callback), and the PDB parser
  `Complex.io.from_pdb` is an oracle function parameter.
-/

section ReduceVerification

attribute [local semireducible] Rat.mul Rat.add Rat.sub Rat.inv

/-! ## Python numeric primitives on exact rationals -/

/-- Round-half-even to an integer: the rounding mode of Python's `round`. -/
def rhe (z : ℚ) : ℤ :=
  if z - ⌊z⌋ < 1/2 then ⌊z⌋
  else if 1/2 < z - ⌊z⌋ then ⌊z⌋ + 1
  else if ⌊z⌋ % 2 = 0 then ⌊z⌋ else ⌊z⌋ + 1

/-- Python `round(x, 4)`: round to 4 decimal places (half-even). -/
def round4 (x : ℚ) : ℚ := (rhe (x * 10000) : ℚ) / 10000

/-- Python `int()` applied to a number: truncation toward zero. -/
def pytrunc (q : ℚ) : ℤ := if 0 ≤ q then ⌊q⌋ else -⌊-q⌋

/-- One coordinate of the position key: `int(50 * round(x, 4))`
(the lambda inside `get_position_key`). -/
def keyCoord (x : ℚ) : ℤ := pytrunc (50 * round4 x)

/-! ## Data model: atoms, bonds, complexes -/

/-- A 3D position with exact rational coordinates. -/
structure Vec3 where
  x : ℚ
  y : ℚ
  z : ℚ
deriving DecidableEq

/-- Squared Euclidean distance; the monotone image of `Vector3.distance`. -/
def distanceSq (a b : Vec3) : ℚ :=
  (a.x - b.x) ^ 2 + (a.y - b.y) ^ 2 + (a.z - b.z) ^ 2

/-- An atom of the nanome structure model.  `aid` is the Python object
identity; `residue` is the identity of the owning residue (the
`atom.residue` back-reference). -/
structure Atom where
  aid : Nat
  serial : Nat
  symbol : String
  position : Vec3
  display_mode : Nat
  is_het : Bool
  selected : Bool
  bfactor : ℚ
  occupancy : ℚ
  residue : Nat
deriving DecidableEq

/-- A bond.  `atom1`/`atom2` hold atom identities; `residue` records the
residue whose bond collection the bond was registered on
(`residue._add_bond`). -/
structure Bond where
  bid : Nat
  kind : Nat
  atom1 : Nat
  atom2 : Nat
  residue : Nat
deriving DecidableEq

/-- `nanome.util.enums.Kind.CovalentSingle`. -/
def covalentSingle : Nat := 1

/-- The element symbol string compared against in the source. -/
def hydrogenSym : String := "H"

/-- A complex: its atoms (in iteration order) and bonds.  Residue
containment is recorded through each atom's `residue` field. -/
structure MolComplex where
  atoms : List Atom
  bonds : List Bond
deriving DecidableEq

/-- `get_position_key`: atom position as a tuple of integers,
`tuple(map(lambda x: int(50 * round(x, 4)), atom.position))`. -/
def get_position_key (a : Atom) : ℤ × ℤ × ℤ :=
  (keyCoord a.position.x, keyCoord a.position.y, keyCoord a.position.z)

/-- The atoms of residue `rid` inside complex `c`, in iteration order
(`atom.residue.atoms`). -/
def residueAtoms (c : MolComplex) (rid : Nat) : List Atom :=
  c.atoms.filter (fun a => a.residue == rid)

/-- The candidate filter of the partner search:
`a != atom and a.symbol != "H"`. -/
def isCand (atom a : Atom) : Prop := a.aid ≠ atom.aid ∧ a.symbol ≠ hydrogenSym

instance (atom a : Atom) : Decidable (isCand atom a) :=
  inferInstanceAs (Decidable (a.aid ≠ atom.aid ∧ a.symbol ≠ hydrogenSym))

/-- One iteration of the `for a in atom.residue.atoms` loop of
`get_closest_heavy_atom_in_residue`. -/
def closerStep (atom : Atom) (acc : Option Atom × ℚ) (a : Atom) : Option Atom × ℚ :=
  if isCand atom a then
    if distanceSq a.position atom.position < acc.2
    then (some a, distanceSq a.position atom.position)
    else acc
  else acc

/-- The initial minimum `minD = 10000.0`, squared. -/
def bigD : ℚ := 100000000

/-- `get_closest_heavy_atom_in_residue`: linear scan over the residue's
atoms keeping the strictly closest candidate seen so far. -/
def get_closest_heavy_atom_in_residue (c : MolComplex) (atom : Atom) : Option Atom × ℚ :=
  (residueAtoms c atom.residue).foldl (closerStep atom) (none, bigD)

/-- Lookup in the `atom_by_position` dict.  The dict is built by
iterating assignments in order, so a later binding of the same key
overwrites an earlier one; the fold reproduces exactly that. -/
def lookupABP (abp : List ((ℤ × ℤ × ℤ) × Atom)) (k : ℤ × ℤ × ℤ) : Option Atom :=
  abp.foldl (fun acc p => if p.1 = k then some p.2 else acc) none

/-- The `atom_by_position` index built over the original complex:
`for atom in complex.atoms: atom_by_position[get_position_key(atom)] = atom`. -/
def buildABP (c : MolComplex) : List ((ℤ × ℤ × ℤ) × Atom) :=
  c.atoms.map (fun a => (get_position_key a, a))

/-- Position-index lookup of a possibly-absent partner atom's key. -/
def partnerLookup (abp : List ((ℤ × ℤ × ℤ) × Atom)) (ob : Option Atom) : Option Atom :=
  ob.bind (fun b => lookupABP abp (get_position_key b))

/-- Two coordinate values on the same side of zero and more than one
quantization unit (`1/50`) apart. -/
def sameSignSep (u v : ℚ) : Prop :=
  ((0 ≤ u ∧ 0 ≤ v) ∨ (u ≤ 0 ∧ v ≤ 0)) ∧ 1/50 < |u - v|

instance (u v : ℚ) : Decidable (sameSignSep u v) :=
  inferInstanceAs (Decidable (((0 ≤ u ∧ 0 ≤ v) ∨ (u ≤ 0 ∧ v ≤ 0)) ∧ 1/50 < |u - v|))

/-! ## The reconciliation loop `match_and_update`

State threaded through the loop: the original complex `O` (mutated by
residue-level insertions only), the reparsed complex `R` (mutated by the
`h_atom.symbol = "H"` assignment and by `add_bond`), and the fresh
identity counter for newly allocated Python objects. -/

/-- The `h_atom.symbol = "H"` assignment. -/
def forceH (a : Atom) : Atom := { a with symbol := hydrogenSym }

/-- In-place update of the atom at index `i` (the snapshot list
`atoms = list(result_complex.atoms)` aliases the live atoms, so the
symbol assignment is visible through the complex). -/
def setAtomAt (c : MolComplex) (i : Nat) (a : Atom) : MolComplex :=
  { c with atoms := c.atoms.set i a }

/-- `add_bond(h_atom, bonded_atom)`: a fresh `CovalentSingle` bond from
the hydrogen to the heavy atom, registered on `atom2.residue`
(the heavy atom's residue). -/
def mkReduceBond (f : Nat) (hA b : Atom) : Bond :=
  { bid := f, kind := covalentSingle, atom1 := hA.aid, atom2 := b.aid, residue := b.residue }

/-- Registering a bond on a residue of the reparsed complex. -/
def addBondR (c : MolComplex) (bnd : Bond) : MolComplex :=
  { c with bonds := c.bonds ++ [bnd] }

/-- `new_atom = h_atom._shallow_copy()` followed by the five metadata
copies from `source_atom` and the `residue.add_atom(new_atom)` insertion
into `source_atom.residue`. -/
def graftAtom (hA src : Atom) (n : Nat) : Atom :=
  { hA with aid := n, display_mode := src.display_mode, is_het := src.is_het,
            selected := src.selected, bfactor := src.bfactor,
            occupancy := src.occupancy, residue := src.residue }

/-- `new_bond = bond._shallow_copy()` with `atom1 = source_atom`,
`atom2 = new_atom`, registered on `source_atom.residue`. -/
def graftBond (n : Nat) (k : Nat) (src na : Atom) : Bond :=
  { bid := n, kind := k, atom1 := src.aid, atom2 := na.aid, residue := src.residue }

/-- Insertion of the new atom and new bond into the original complex
(`residue.add_atom(new_atom); residue.add_bond(new_bond)`). -/
def graftInto (O : MolComplex) (na : Atom) (nb : Bond) : MolComplex :=
  { atoms := O.atoms ++ [na], bonds := O.bonds ++ [nb] }

/-- One iteration of the `for id in hydrogen_ids` loop of
`match_and_update`.  `none` models the `IndexError` raised by
`atoms[id]` when `id` is out of bounds.  The `bonded_atom_key is None`
disjunct of the source is dead code (`get_position_key` always returns a
tuple), so only the `not in atom_by_position` test appears. -/
def stepH (abp : List ((ℤ × ℤ × ℤ) × Atom)) :
    MolComplex × MolComplex × Nat → Nat → Option (MolComplex × MolComplex × Nat)
  | (O, R, f), i =>
    match R.atoms.get? i with
    | none => none
    | some a0 =>
      match get_closest_heavy_atom_in_residue (setAtomAt R i (forceH a0)) (forceH a0) with
      | (none, _) => some (O, setAtomAt R i (forceH a0), f)
      | (some bonded, d) =>
        if 4 < d then some (O, setAtomAt R i (forceH a0), f)
        else
          match lookupABP abp (get_position_key bonded) with
          | none =>
            some (O,
                  addBondR (setAtomAt R i (forceH a0)) (mkReduceBond f (forceH a0) bonded),
                  f + 1)
          | some source =>
            some (graftInto O (graftAtom (forceH a0) source (f + 1))
                    (graftBond (f + 2) covalentSingle source
                      (graftAtom (forceH a0) source (f + 1))),
                  addBondR (setAtomAt R i (forceH a0)) (mkReduceBond f (forceH a0) bonded),
                  f + 3)

/-- The loop of `match_and_update` over the hydrogen index list. -/
def runIds (abp : List ((ℤ × ℤ × ℤ) × Atom)) :
    MolComplex × MolComplex × Nat → List Nat → Option (MolComplex × MolComplex × Nat)
  | st, [] => some st
  | st, i :: rest =>
    match stepH abp st i with
    | none => none
    | some st2 => runIds abp st2 rest

/-- `match_and_update(atom_by_position, result_complex, hydrogen_ids)`,
acting on original complex `O` and reparsed complex `R`; `fresh` seeds
the identities of newly created objects. -/
def match_and_update (abp : List ((ℤ × ℤ × ℤ) × Atom)) (O R : MolComplex)
    (fresh : Nat) (ids : List Nat) : Option (MolComplex × MolComplex × Nat) :=
  runIds abp (O, R, fresh) ids

/-! ## The subprocess adapter `call_Reduce` -/

/-- The newline terminator appended by the file-writing loop. -/
def nlStr : String := "\n"

/-- Python `str.splitlines` restricted to `\n` terminators (the only
terminator this program produces): split on newlines, no trailing empty
line for a trailing terminator. -/
def splitAux : List Char → List Char → List (List Char)
  | [], acc => if acc.isEmpty then [] else [acc.reverse]
  | c :: cs, acc =>
    if c = '\n' then acc.reverse :: splitAux cs [] else splitAux cs (c :: acc)

/-- `current_output.splitlines()`. -/
def pySplitlines (s : String) : List String := (splitAux s.data []).map String.mk

/-- Python `str.startswith`. -/
def pyStartsWith (s p : String) : Bool := p.data.isPrefixOf s.data

/-- Python `str.endswith`. -/
def pyEndsWith (s p : String) : Bool := p.data.isSuffixOf s.data

/-- Structural PDB record tag `ATOM`. -/
def atomTag : String := "ATOM"

/-- Structural PDB record tag `HETATM`. -/
def hetatmTag : String := "HETATM"

/-- Structural PDB record tag `CONECT`. -/
def conectTag : String := "CONECT"

/-- The filtering of captured output before writing the output file:
`l.startswith("ATOM") or l.startswith("HETATM") or l.startswith("CONECT")`. -/
def isStructural (l : String) : Bool :=
  pyStartsWith l atomTag || pyStartsWith l hetatmTag || pyStartsWith l conectTag

/-- The marker suffix tested by `line.endswith('new\n')`. -/
def newMarker : String := "new\n"

/-- Classification of one raw line (newline terminator included, as
produced by `readlines`): `len(line) > 84 and line.endswith('new\n')`. -/
def isNewRaw (raw : String) : Bool :=
  if 84 < raw.data.length then pyEndsWith raw newMarker else false

/-- The reread loop of `call_Reduce`: every line of the output file gets
an index (the counter increments unconditionally), and the indices of
lines classified as new hydrogens are collected in order.  Each stored
file line is reread with its terminator, `l ++ "\n"`, because the write
loop emitted exactly `(l + "\n")`. -/
def collectNew : List String → Nat → List Nat
  | [], _ => []
  | l :: rest, i =>
    if isNewRaw (l ++ nlStr) then i :: collectNew rest (i + 1)
    else collectNew rest (i + 1)

/-- One run of the external engine: its exit code and the text chunks
delivered to the `on_output` callback. -/
structure EngineRun where
  exitCode : Int
  chunks : List String
deriving DecidableEq

/-- The value of the pair returned by `call_Reduce`: either the sentinel
failure pair `(-1, -1)`, or the parsed complex (possibly `None`)
together with the written file lines and the new-hydrogen index list. -/
inductive ReduceResult where
  | sentinel : ReduceResult
  | ok : Option MolComplex → List String → List Nat → ReduceResult
deriving DecidableEq

/-- `call_Reduce`.  `buf` is the module-level `current_output` buffer as
it stands when the call begins; the returned string is the buffer after
the call.  The source never clears it: the callback only ever appends.
On a negative exit code nothing is written and the sentinel is returned;
otherwise the buffer's structural lines are written to the output file,
the file is parsed (`parse` models `Complex.io.from_pdb`), and the file
is reread to collect new-hydrogen line indices. -/
def call_Reduce (parse : List String → Option MolComplex) (buf : String)
    (run : EngineRun) : String × ReduceResult :=
  let buf1 := run.chunks.foldl (fun s c => s ++ c) buf
  if run.exitCode < 0 then (buf1, ReduceResult.sentinel)
  else
    let fileLines := (pySplitlines buf1).filter isStructural
    (buf1, ReduceResult.ok (parse fileLines) fileLines (collectNew fileLines 0))

/-! ## The batch driver `add_hydrogens` -/

/-- User-facing notifications sent by the driver. -/
inductive Note where
  | engineError : Note
deriving DecidableEq

/-- Identity seed for the objects created while reconciling one
structure: fresh Python object identities are beyond every identity
already live in either complex. -/
def freshBase (O R : MolComplex) : Nat :=
  ((O.atoms ++ R.atoms).map (fun a => a.aid)).foldr max 0 + 1

/-- The `for complex in complexes` loop of `add_hydrogens`.  Each entry
pairs an original complex with the engine behaviour its run will
exhibit.  The `current_output` buffer is threaded through the whole
batch exactly as the module-level variable is.  `none` models an
uncaught exception escaping the loop. -/
def add_hydrogens (parse : List String → Option MolComplex) :
    String → List (MolComplex × EngineRun) → Option (String × List MolComplex × List Note)
  | buf, [] => some (buf, [], [])
  | buf, (c, run) :: rest =>
    match call_Reduce parse buf run with
    | (buf1, ReduceResult.sentinel) =>
      match add_hydrogens parse buf1 rest with
      | none => none
      | some (b, cs, ns) => some (b, c :: cs, Note.engineError :: ns)
    | (buf1, ReduceResult.ok none _ _) =>
      match add_hydrogens parse buf1 rest with
      | none => none
      | some (b, cs, ns) => some (b, c :: cs, ns)
    | (buf1, ReduceResult.ok (some rc) _ hyd) =>
      if hyd.isEmpty then
        match add_hydrogens parse buf1 rest with
        | none => none
        | some (b, cs, ns) => some (b, c :: cs, ns)
      else
        match match_and_update (buildABP c) c rc (freshBase c rc) hyd with
        | none => none
        | some (c2, _, _) =>
          match add_hydrogens parse buf1 rest with
          | none => none
          | some (b, cs, ns) => some (b, c2 :: cs, ns)

/-! ## Concrete inputs used by witnesses and counterexamples -/

/-- An atom with default metadata, for building concrete test structures. -/
def mkAtom (n : Nat) (s : String) (p : Vec3) (rid : Nat) : Atom :=
  { aid := n, serial := n, symbol := s, position := p, display_mode := 0,
    is_het := false, selected := false, bfactor := 0, occupancy := 0, residue := rid }

/-- Original-complex heavy atom carrying distinctive metadata. -/
def exSrc : Atom :=
  { aid := 1, serial := 7, symbol := "C", position := ⟨0, 0, 0⟩, display_mode := 3,
    is_het := true, selected := true, bfactor := 1/2, occupancy := 3/4, residue := 1 }

/-- Original complex with the single heavy atom `exSrc`. -/
def exO : MolComplex := { atoms := [exSrc], bonds := [] }

/-- Reparsed-complex heavy atom at the same position as `exSrc`. -/
def exB : Atom := mkAtom 21 "C" ⟨0, 0, 0⟩ 5

/-- Reparsed-complex hydrogen at distance 1 from `exB`. -/
def exH : Atom := mkAtom 22 "X" ⟨1, 0, 0⟩ 5

/-- Reparsed complex for the successful-graft scenario. -/
def exR : MolComplex := { atoms := [exB, exH], bonds := [] }

/-- A lone candidate at distance exactly 10000 (squared: `bigD`). -/
def exFar : Atom := mkAtom 31 "C" ⟨10000, 0, 0⟩ 9

/-- The hydrogen whose only residue-mate is `exFar`. -/
def exFarH : Atom := mkAtom 32 "X" ⟨0, 0, 0⟩ 9

/-- Reparsed complex for the sentinel-bound counterexample. -/
def exFarR : MolComplex := { atoms := [exFar, exFarH], bonds := [] }

/-- A candidate at distance exactly 2.0 (squared distance 4). -/
def exB2 : Atom := mkAtom 51 "C" ⟨2, 0, 0⟩ 6

/-- Hydrogen at the origin of residue 6. -/
def exH2 : Atom := mkAtom 52 "X" ⟨0, 0, 0⟩ 6

/-- Reparsed complex with a partner exactly on the 2.0 threshold. -/
def exR2 : MolComplex := { atoms := [exB2, exH2], bonds := [] }

/-- A candidate at distance 3 (beyond the 2.0 threshold). -/
def exB3 : Atom := mkAtom 61 "C" ⟨3, 0, 0⟩ 7

/-- Hydrogen at the origin of residue 7. -/
def exH3 : Atom := mkAtom 62 "X" ⟨0, 0, 0⟩ 7

/-- Reparsed complex with the nearest partner beyond the threshold. -/
def exR3 : MolComplex := { atoms := [exB3, exH3], bonds := [] }

/-- Position `0.0199`: rounds to itself, key coordinate `⌊0.995⌋ = 0`. -/
def ceP1 : Atom := mkAtom 41 "C" ⟨199/10000, 0, 0⟩ 1

/-- Position `0.02`: key coordinate `1`, though only `0.0001` away from `ceP1`. -/
def ceP2 : Atom := mkAtom 42 "C" ⟨1/50, 0, 0⟩ 1

/-- Position `-0.0101`: truncation toward zero gives key coordinate `0`. -/
def ceQ1 : Atom := mkAtom 43 "C" ⟨-101/10000, 0, 0⟩ 1

/-- Position `0.0101`: also key coordinate `0`, though `0.0202` away from `ceQ1`. -/
def ceQ2 : Atom := mkAtom 44 "C" ⟨101/10000, 0, 0⟩ 1

/-- Position `0.01999`, which rounds at 4 decimals to `0.02`. -/
def ceR1 : Atom := mkAtom 45 "C" ⟨1999/100000, 0, 0⟩ 1

/-- Position `0.02001`, which also rounds at 4 decimals to `0.02`. -/
def ceR2 : Atom := mkAtom 46 "C" ⟨2001/100000, 0, 0⟩ 1

/-- Position `0`, for the same-sign separation witness. -/
def ceS1 : Atom := mkAtom 47 "C" ⟨0, 0, 0⟩ 1

/-- Position `0.03`, more than one quantization unit from `ceS1`. -/
def ceS2 : Atom := mkAtom 48 "C" ⟨3/100, 0, 0⟩ 1

/-- The state produced by reconciling hydrogen index 1 of `exR` into `exO`. -/
def exOut : MolComplex × MolComplex × Nat :=
  (⟨[exSrc, graftAtom (forceH exH) exSrc 101],
    [graftBond 102 covalentSingle exSrc (graftAtom (forceH exH) exSrc 101)]⟩,
   addBondR (setAtomAt exR 1 (forceH exH)) (mkReduceBond 100 (forceH exH) exB), 103)

/-- The state produced by the orphan-key skip (empty position index). -/
def exSkipOut : MolComplex × MolComplex × Nat :=
  (exO, addBondR (setAtomAt exR 1 (forceH exH)) (mkReduceBond 100 (forceH exH) exB), 101)

/-- The state produced by accepting a partner at distance exactly 2.0
whose key is orphaned (so only the reparsed complex gains a bond). -/
def exOut2 : MolComplex × MolComplex × Nat :=
  (exO, addBondR (setAtomAt exR2 1 (forceH exH2)) (mkReduceBond 100 (forceH exH2) exB2), 101)

/-- A parser oracle that always fails to parse (irrelevant to the
properties it is used for). -/
def pnone : List String → Option MolComplex := fun _ => none

/-- First engine run: exits 0, emits one `ATOM` line. -/
def runA : EngineRun := { exitCode := 0, chunks := ["ATOM one", nlStr] }

/-- Second engine run: exits 0, emits a different `ATOM` line. -/
def runB : EngineRun := { exitCode := 0, chunks := ["ATOM two" ++ nlStr] }

/-- An engine run failing with exit code `-1`. -/
def runFail : EngineRun := { exitCode := -1, chunks := ["usage: reduce ..."] }

/-- An 84-character PDB line ending in the `new` marker (85 with the
terminator, hence classified as a new hydrogen). -/
def longLine : String :=
  "ATOM      1  H   ALA A   1       0.000   0.000   0.000  1.00  0.00           H   new"

/-! ## Arithmetic facts about the position-key quantizer -/

theorem rhe_le (z : ℚ) : (rhe z : ℚ) ≤ z + 1/2 := by
  have h0 : (⌊z⌋ : ℚ) ≤ z := Int.floor_le z
  have h1 : z < ⌊z⌋ + 1 := Int.lt_floor_add_one z
  unfold rhe
  split
  · linarith
  · rename_i hlt
    split
    · rename_i hgt
      push_cast
      linarith
    · split <;> push_cast <;> linarith

theorem le_rhe (z : ℚ) : z - 1/2 ≤ (rhe z : ℚ) := by
  have h0 : (⌊z⌋ : ℚ) ≤ z := Int.floor_le z
  have h1 : z < ⌊z⌋ + 1 := Int.lt_floor_add_one z
  unfold rhe
  split
  · rename_i hlt
    linarith
  · rename_i hlt
    split
    · push_cast
      linarith
    · rename_i hgt
      have heq : z - ⌊z⌋ = 1/2 := le_antisymm (not_lt.mp hgt) (not_lt.mp hlt)
      split <;> push_cast <;> linarith

theorem rhe_nonneg {z : ℚ} (hz : 0 ≤ z) : 0 ≤ rhe z := by
  have h0 : (0:ℤ) ≤ ⌊z⌋ := Int.floor_nonneg.mpr hz
  unfold rhe
  split
  · exact h0
  · split
    · omega
    · split <;> omega

theorem rhe_nonpos {z : ℚ} (hz : z ≤ 0) : rhe z ≤ 0 := by
  have h1 : (rhe z : ℚ) ≤ z + 1/2 := rhe_le z
  by_contra h
  push_neg at h
  have h2 : (1 : ℤ) ≤ rhe z := h
  have h3 : (1 : ℚ) ≤ (rhe z : ℚ) := by exact_mod_cast h2
  linarith

theorem pytrunc_nonneg_eq {q : ℚ} (h : 0 ≤ q) : pytrunc q = ⌊q⌋ := if_pos h

theorem pytrunc_nonpos_eq {q : ℚ} (h : q ≤ 0) : pytrunc q = ⌈q⌉ := by
  unfold pytrunc
  by_cases h0 : 0 ≤ q
  · have hq : q = 0 := le_antisymm h h0
    rw [if_pos h0, hq]
    simp
  · rw [if_neg h0, Int.floor_neg]
    omega

theorem pytrunc_mono {a b : ℚ} (h : a ≤ b) : pytrunc a ≤ pytrunc b := by
  unfold pytrunc
  by_cases ha : 0 ≤ a
  · rw [if_pos ha, if_pos (le_trans ha h)]
    exact Int.floor_le_floor h
  · rw [if_neg ha]
    by_cases hb : 0 ≤ b
    · rw [if_pos hb]
      have h1 : ⌊-a⌋ = -⌈a⌉ := Int.floor_neg
      have h2 : ⌈a⌉ ≤ 0 := Int.ceil_le.mpr (by push_cast; linarith)
      have h3 : 0 ≤ ⌊b⌋ := Int.floor_nonneg.mpr hb
      omega
    · rw [if_neg hb]
      have h4 : ⌊-b⌋ ≤ ⌊-a⌋ := Int.floor_le_floor (by linarith)
      omega

theorem pytrunc_add_one_le (a : ℚ) : pytrunc (a + 1) ≤ pytrunc a + 1 := by
  unfold pytrunc
  by_cases ha : 0 ≤ a
  · rw [if_pos ha, if_pos (by linarith)]
    have h1 : ⌊a + 1⌋ = ⌊a⌋ + 1 := Int.floor_add_one a
    omega
  · rw [if_neg ha]
    by_cases hb : 0 ≤ a + 1
    · rw [if_pos hb]
      have h1 : ⌊a + 1⌋ = ⌊a⌋ + 1 := Int.floor_add_one a
      have h2 : ⌊a⌋ ≤ ⌈a⌉ := Int.floor_le_ceil a
      have h3 : ⌊-a⌋ = -⌈a⌉ := Int.floor_neg
      omega
    · rw [if_neg hb]
      have h3 : (-(a+1) : ℚ) = -a + ((-1 : ℤ) : ℚ) := by push_cast; ring
      have h2 : ⌊(-a : ℚ) + ((-1 : ℤ) : ℚ)⌋ = ⌊-a⌋ + (-1) := Int.floor_add_int (-a) (-1)
      rw [h3, h2]
      omega

theorem pytrunc_close {a b : ℚ} (h : |a - b| ≤ 1) : |pytrunc a - pytrunc b| ≤ 1 := by
  rcases le_total a b with hab | hab
  · have hd := abs_le.mp h
    have hb1 : b ≤ a + 1 := by linarith [hd.1]
    have h1 : pytrunc a ≤ pytrunc b := pytrunc_mono hab
    have h2 : pytrunc b ≤ pytrunc (a + 1) := pytrunc_mono hb1
    have h3 := pytrunc_add_one_le a
    rw [abs_le]
    omega
  · have hd := abs_le.mp h
    have ha1 : a ≤ b + 1 := by linarith [hd.2]
    have h1 : pytrunc b ≤ pytrunc a := pytrunc_mono hab
    have h2 : pytrunc a ≤ pytrunc (b + 1) := pytrunc_mono ha1
    have h3 := pytrunc_add_one_le b
    rw [abs_le]
    omega

theorem fifty_round4 (x : ℚ) : 50 * round4 x = (rhe (x * 10000) : ℚ) / 200 := by
  unfold round4
  ring

theorem keyCoord_close {x y : ℚ} (h : |x - y| < 1/5000) :
    |keyCoord x - keyCoord y| ≤ 1 := by
  have hx1 : (rhe (x*10000) : ℚ) ≤ x*10000 + 1/2 := rhe_le _
  have hx2 : x*10000 - 1/2 ≤ (rhe (x*10000) : ℚ) := le_rhe _
  have hy1 : (rhe (y*10000) : ℚ) ≤ y*10000 + 1/2 := rhe_le _
  have hy2 : y*10000 - 1/2 ≤ (rhe (y*10000) : ℚ) := le_rhe _
  have habs := abs_lt.mp h
  have hq : |(rhe (x*10000) : ℚ) - (rhe (y*10000) : ℚ)| < 3 := by
    rw [abs_lt]
    constructor <;> linarith [habs.1, habs.2]
  have hz : |rhe (x*10000) - rhe (y*10000)| < 3 := by exact_mod_cast hq
  have hz2 := abs_le.mp (by omega : |rhe (x*10000) - rhe (y*10000)| ≤ 2)
  have hd : |50 * round4 x - 50 * round4 y| ≤ 1 := by
    rw [fifty_round4, fifty_round4]
    have c1 : ((rhe (x*10000) : ℚ)) - (rhe (y*10000) : ℚ) ≤ 2 := by exact_mod_cast hz2.2
    have c2 : (-2 : ℚ) ≤ ((rhe (x*10000) : ℚ)) - (rhe (y*10000) : ℚ) := by exact_mod_cast hz2.1
    rw [abs_le]
    constructor <;> linarith
  unfold keyCoord
  exact pytrunc_close hd

theorem keyCoord_lt_of_nonneg {x y : ℚ} (hx : 0 ≤ x) (hxy : x + 1/50 < y) :
    keyCoord x < keyCoord y := by
  have hy : 0 ≤ y := by linarith
  have h1 : (rhe (x*10000) : ℚ) ≤ x*10000 + 1/2 := rhe_le _
  have h2 : y*10000 - 1/2 ≤ (rhe (y*10000) : ℚ) := le_rhe _
  have h3 : (rhe (x*10000) : ℚ) + 199 < (rhe (y*10000) : ℚ) := by linarith
  have h4 : rhe (x*10000) + 199 < rhe (y*10000) := by exact_mod_cast h3
  have hnx : 0 ≤ rhe (x*10000) := rhe_nonneg (by linarith)
  have hny : 0 ≤ rhe (y*10000) := rhe_nonneg (by linarith)
  have hnxq : (0 : ℚ) ≤ (rhe (x*10000) : ℚ) := by exact_mod_cast hnx
  have hnyq : (0 : ℚ) ≤ (rhe (y*10000) : ℚ) := by exact_mod_cast hny
  have e1 : keyCoord x = ⌊(rhe (x*10000) : ℚ) / 200⌋ := by
    unfold keyCoord
    rw [fifty_round4]
    exact pytrunc_nonneg_eq (by linarith)
  have e2 : keyCoord y = ⌊(rhe (y*10000) : ℚ) / 200⌋ := by
    unfold keyCoord
    rw [fifty_round4]
    exact pytrunc_nonneg_eq (by linarith)
  rw [e1, e2]
  have h5 : (rhe (x*10000) : ℚ)/200 + 1 ≤ (rhe (y*10000) : ℚ)/200 := by
    have h4q : (rhe (x*10000) : ℚ) + 200 ≤ (rhe (y*10000) : ℚ) := by
      exact_mod_cast (by omega : rhe (x*10000) + 200 ≤ rhe (y*10000))
    linarith
  have h6 : ⌊(rhe (x*10000) : ℚ)/200 + 1⌋ ≤ ⌊(rhe (y*10000) : ℚ)/200⌋ :=
    Int.floor_le_floor h5
  have h7 : ⌊(rhe (x*10000) : ℚ)/200 + 1⌋ = ⌊(rhe (x*10000) : ℚ)/200⌋ + 1 :=
    Int.floor_add_one _
  omega

theorem keyCoord_lt_of_nonpos {x y : ℚ} (hy : y ≤ 0) (hxy : x + 1/50 < y) :
    keyCoord x < keyCoord y := by
  have hx : x ≤ 0 := by linarith
  have h1 : (rhe (x*10000) : ℚ) ≤ x*10000 + 1/2 := rhe_le _
  have h2 : y*10000 - 1/2 ≤ (rhe (y*10000) : ℚ) := le_rhe _
  have h3 : (rhe (x*10000) : ℚ) + 199 < (rhe (y*10000) : ℚ) := by linarith
  have h4 : rhe (x*10000) + 199 < rhe (y*10000) := by exact_mod_cast h3
  have hnx : rhe (x*10000) ≤ 0 := rhe_nonpos (by linarith)
  have hny : rhe (y*10000) ≤ 0 := rhe_nonpos (by linarith)
  have hnxq : (rhe (x*10000) : ℚ) ≤ 0 := by exact_mod_cast hnx
  have hnyq : (rhe (y*10000) : ℚ) ≤ 0 := by exact_mod_cast hny
  have e1 : keyCoord x = ⌈(rhe (x*10000) : ℚ) / 200⌉ := by
    unfold keyCoord
    rw [fifty_round4]
    exact pytrunc_nonpos_eq (by linarith)
  have e2 : keyCoord y = ⌈(rhe (y*10000) : ℚ) / 200⌉ := by
    unfold keyCoord
    rw [fifty_round4]
    exact pytrunc_nonpos_eq (by linarith)
  rw [e1, e2]
  have h5 : (rhe (x*10000) : ℚ)/200 + 1 ≤ (rhe (y*10000) : ℚ)/200 := by
    have h4q : (rhe (x*10000) : ℚ) + 200 ≤ (rhe (y*10000) : ℚ) := by
      exact_mod_cast (by omega : rhe (x*10000) + 200 ≤ rhe (y*10000))
    linarith
  have h6 : ⌈(rhe (x*10000) : ℚ)/200 + 1⌉ ≤ ⌈(rhe (y*10000) : ℚ)/200⌉ :=
    Int.ceil_le_ceil h5
  have h7 : ⌈(rhe (x*10000) : ℚ)/200 + 1⌉ = ⌈(rhe (x*10000) : ℚ)/200⌉ + 1 :=
    Int.ceil_add_one _
  omega

theorem keyCoord_sep {u v : ℚ} (hsign : (0 ≤ u ∧ 0 ≤ v) ∨ (u ≤ 0 ∧ v ≤ 0))
    (hfar : 1/50 < |u - v|) : keyCoord u ≠ keyCoord v := by
  rcases lt_abs.mp hfar with h | h
  · rcases hsign with ⟨hu, hv⟩ | ⟨hu, hv⟩
    · exact (keyCoord_lt_of_nonneg hv (by linarith)).ne'
    · exact (keyCoord_lt_of_nonpos hu (by linarith)).ne'
  · rcases hsign with ⟨hu, hv⟩ | ⟨hu, hv⟩
    · exact (keyCoord_lt_of_nonneg hu (by linarith)).ne
    · exact (keyCoord_lt_of_nonpos hv (by linarith)).ne

theorem keyCoord_congr {x y : ℚ} (h : round4 x = round4 y) : keyCoord x = keyCoord y := by
  unfold keyCoord
  rw [h]

/-! ## Characterization of the partner search -/

theorem closer_foldl (atom : Atom) (l : List Atom) (acc : Option Atom × ℚ) :
    (∀ a ∈ l, isCand atom a →
        (l.foldl (closerStep atom) acc).2 ≤ distanceSq a.position atom.position)
    ∧ (l.foldl (closerStep atom) acc).2 ≤ acc.2
    ∧ (l.foldl (closerStep atom) acc = acc
       ∨ ∃ a, a ∈ l ∧ isCand atom a
           ∧ l.foldl (closerStep atom) acc = (some a, distanceSq a.position atom.position)
           ∧ distanceSq a.position atom.position < acc.2) := by
  induction l generalizing acc with
  | nil => simp
  | cons b t ih =>
    simp only [List.foldl_cons]
    by_cases hc : isCand atom b
    · by_cases hlt : distanceSq b.position atom.position < acc.2
      · have hstep : closerStep atom acc b = (some b, distanceSq b.position atom.position) := by
          unfold closerStep
          rw [if_pos hc, if_pos hlt]
        rw [hstep]
        obtain ⟨ih1, ih2, ih3⟩ := ih (some b, distanceSq b.position atom.position)
        refine ⟨?_, le_trans ih2 (le_of_lt hlt), ?_⟩
        · intro a ha hca
          rcases List.mem_cons.mp ha with rfl | hat
          · exact ih2
          · exact ih1 a hat hca
        · rcases ih3 with heq | ⟨a, hat, hca, heq, hlt2⟩
          · exact Or.inr ⟨b, List.mem_cons_self b t, hc, heq, hlt⟩
          · exact Or.inr ⟨a, List.mem_cons_of_mem b hat, hca, heq, lt_trans hlt2 hlt⟩
      · have hstep : closerStep atom acc b = acc := by
          unfold closerStep
          rw [if_pos hc, if_neg hlt]
        rw [hstep]
        obtain ⟨ih1, ih2, ih3⟩ := ih acc
        refine ⟨?_, ih2, ?_⟩
        · intro a ha hca
          rcases List.mem_cons.mp ha with rfl | hat
          · exact le_trans ih2 (not_lt.mp hlt)
          · exact ih1 a hat hca
        · rcases ih3 with heq | ⟨a, hat, hca, heq, hlt2⟩
          · exact Or.inl heq
          · exact Or.inr ⟨a, List.mem_cons_of_mem b hat, hca, heq, hlt2⟩
    · have hstep : closerStep atom acc b = acc := by
        unfold closerStep
        rw [if_neg hc]
      rw [hstep]
      obtain ⟨ih1, ih2, ih3⟩ := ih acc
      refine ⟨?_, ih2, ?_⟩
      · intro a ha hca
        rcases List.mem_cons.mp ha with rfl | hat
        · exact absurd hca hc
        · exact ih1 a hat hca
      · rcases ih3 with heq | ⟨a, hat, hca, heq, hlt2⟩
        · exact Or.inl heq
        · exact Or.inr ⟨a, List.mem_cons_of_mem b hat, hca, heq, hlt2⟩

theorem closest_some_spec {c : MolComplex} {atom b : Atom} {d : ℚ}
    (h : get_closest_heavy_atom_in_residue c atom = (some b, d)) :
    b ∈ residueAtoms c atom.residue ∧ isCand atom b
    ∧ d = distanceSq b.position atom.position ∧ d < bigD
    ∧ ∀ a ∈ residueAtoms c atom.residue, isCand atom a →
        d ≤ distanceSq a.position atom.position := by
  unfold get_closest_heavy_atom_in_residue at h
  obtain ⟨h1, _h2, h3⟩ := closer_foldl atom (residueAtoms c atom.residue) (none, bigD)
  rw [h] at h1 h3
  rcases h3 with heq | ⟨a, hat, hca, heq, hlt⟩
  · simp at heq
  · simp only [Prod.mk.injEq, Option.some.injEq] at heq
    obtain ⟨rfl, rfl⟩ := heq
    exact ⟨hat, hca, rfl, hlt, fun a2 ha2 hca2 => h1 a2 ha2 hca2⟩

theorem closest_none_spec {c : MolComplex} {atom : Atom} {d : ℚ}
    (h : get_closest_heavy_atom_in_residue c atom = (none, d)) :
    d = bigD ∧ ∀ a ∈ residueAtoms c atom.residue, isCand atom a →
        bigD ≤ distanceSq a.position atom.position := by
  unfold get_closest_heavy_atom_in_residue at h
  obtain ⟨h1, _h2, h3⟩ := closer_foldl atom (residueAtoms c atom.residue) (none, bigD)
  rw [h] at h1 h3
  rcases h3 with heq | ⟨a, hat, hca, heq, hlt⟩
  · simp only [Prod.mk.injEq] at heq
    obtain ⟨_, rfl⟩ := heq
    exact ⟨rfl, fun a ha hca => h1 a ha hca⟩
  · simp at heq

theorem closest_far_none {c : MolComplex} {atom : Atom}
    (h : ∀ a ∈ residueAtoms c atom.residue, isCand atom a →
        bigD ≤ distanceSq a.position atom.position) :
    (get_closest_heavy_atom_in_residue c atom).1 = none := by
  unfold get_closest_heavy_atom_in_residue
  obtain ⟨_h1, _h2, h3⟩ := closer_foldl atom (residueAtoms c atom.residue) (none, bigD)
  rcases h3 with heq | ⟨a, hat, hca, heq, hlt⟩
  · rw [heq]
  · exact absurd hlt (not_lt.mpr (h a hat hca))

/-! ## Characterization of one reconciliation step -/

theorem stepH_eq (abp : List ((ℤ × ℤ × ℤ) × Atom)) (O R : MolComplex) (f i : Nat) :
    stepH abp (O, R, f) i =
      match R.atoms.get? i with
      | none => none
      | some a0 =>
        match get_closest_heavy_atom_in_residue (setAtomAt R i (forceH a0)) (forceH a0) with
        | (none, _) => some (O, setAtomAt R i (forceH a0), f)
        | (some bonded, d) =>
          if 4 < d then some (O, setAtomAt R i (forceH a0), f)
          else
            match lookupABP abp (get_position_key bonded) with
            | none =>
              some (O,
                    addBondR (setAtomAt R i (forceH a0)) (mkReduceBond f (forceH a0) bonded),
                    f + 1)
            | some source =>
              some (graftInto O (graftAtom (forceH a0) source (f + 1))
                      (graftBond (f + 2) covalentSingle source
                        (graftAtom (forceH a0) source (f + 1))),
                    addBondR (setAtomAt R i (forceH a0)) (mkReduceBond f (forceH a0) bonded),
                    f + 3) := rfl

theorem stepH_shape {abp : List ((ℤ × ℤ × ℤ) × Atom)} {O R : MolComplex} {f i : Nat}
    {out : MolComplex × MolComplex × Nat}
    (h : stepH abp (O, R, f) i = some out) :
    ∃ a0, R.atoms.get? i = some a0 ∧
      ((∃ d, get_closest_heavy_atom_in_residue (setAtomAt R i (forceH a0)) (forceH a0) = (none, d)
          ∧ out = (O, setAtomAt R i (forceH a0), f))
       ∨ (∃ b d, get_closest_heavy_atom_in_residue (setAtomAt R i (forceH a0)) (forceH a0) = (some b, d)
          ∧ 4 < d ∧ out = (O, setAtomAt R i (forceH a0), f))
       ∨ (∃ b d, get_closest_heavy_atom_in_residue (setAtomAt R i (forceH a0)) (forceH a0) = (some b, d)
          ∧ ¬ 4 < d ∧ lookupABP abp (get_position_key b) = none
          ∧ out = (O, addBondR (setAtomAt R i (forceH a0)) (mkReduceBond f (forceH a0) b), f + 1))
       ∨ (∃ b d src, get_closest_heavy_atom_in_residue (setAtomAt R i (forceH a0)) (forceH a0) = (some b, d)
          ∧ ¬ 4 < d ∧ lookupABP abp (get_position_key b) = some src
          ∧ out = (graftInto O (graftAtom (forceH a0) src (f + 1))
                     (graftBond (f + 2) covalentSingle src (graftAtom (forceH a0) src (f + 1))),
                   addBondR (setAtomAt R i (forceH a0)) (mkReduceBond f (forceH a0) b), f + 3))) := by
  rw [stepH_eq] at h
  split at h
  · exact Option.noConfusion h
  · rename_i a0 hg
    refine ⟨a0, hg, ?_⟩
    split at h
    · rename_i d hcl
      simp only [Option.some.injEq] at h
      exact Or.inl ⟨d, hcl, h.symm⟩
    · rename_i bonded d hcl
      split at h
      · rename_i hd
        simp only [Option.some.injEq] at h
        exact Or.inr (Or.inl ⟨bonded, d, hcl, hd, h.symm⟩)
      · rename_i hd
        split at h
        · rename_i hlk
          simp only [Option.some.injEq] at h
          exact Or.inr (Or.inr (Or.inl ⟨bonded, d, hcl, hd, hlk, h.symm⟩))
        · rename_i src hlk
          simp only [Option.some.injEq] at h
          exact Or.inr (Or.inr (Or.inr ⟨bonded, d, src, hcl, hd, hlk, h.symm⟩))

theorem stepH_isSome {abp : List ((ℤ × ℤ × ℤ) × Atom)} {O R : MolComplex} {f i : Nat}
    {a0 : Atom} (hg : R.atoms.get? i = some a0) :
    (stepH abp (O, R, f) i).isSome = true := by
  rw [stepH_eq]
  simp only [hg]
  split
  · simp
  · split
    · simp
    · split <;> simp

theorem stepH_none_iff {abp : List ((ℤ × ℤ × ℤ) × Atom)} {O R : MolComplex} {f i : Nat} :
    stepH abp (O, R, f) i = none ↔ R.atoms.get? i = none := by
  constructor
  · intro h
    cases hg : R.atoms.get? i with
    | none => rfl
    | some a0 =>
      have hsome := @stepH_isSome abp O R f i a0 hg
      rw [h] at hsome
      simp at hsome
  · intro hg
    rw [stepH_eq]
    simp only [hg]

theorem stepH_R_atoms {abp : List ((ℤ × ℤ × ℤ) × Atom)} {O R : MolComplex} {f i : Nat}
    {out : MolComplex × MolComplex × Nat} (h : stepH abp (O, R, f) i = some out) :
    ∃ a0, R.atoms.get? i = some a0 ∧ out.2.1.atoms = R.atoms.set i (forceH a0) := by
  obtain ⟨a0, hg, hc⟩ := stepH_shape h
  refine ⟨a0, hg, ?_⟩
  rcases hc with ⟨d, _, rfl⟩ | ⟨b, d, _, _, rfl⟩ | ⟨b, d, _, _, _, rfl⟩ | ⟨b, d, src, _, _, _, rfl⟩ <;> rfl

theorem stepH_O_extends {abp : List ((ℤ × ℤ × ℤ) × Atom)} {O R : MolComplex} {f i : Nat}
    {out : MolComplex × MolComplex × Nat} (h : stepH abp (O, R, f) i = some out) :
    ∃ nas nbs, out.1.atoms = O.atoms ++ nas ∧ out.1.bonds = O.bonds ++ nbs := by
  obtain ⟨a0, hg, hc⟩ := stepH_shape h
  rcases hc with ⟨d, _, rfl⟩ | ⟨b, d, _, _, rfl⟩ | ⟨b, d, _, _, _, rfl⟩ | ⟨b, d, src, _, _, _, rfl⟩
  · exact ⟨[], [], by simp, by simp⟩
  · exact ⟨[], [], by simp, by simp⟩
  · exact ⟨[], [], by simp, by simp⟩
  · exact ⟨[graftAtom (forceH a0) src (f + 1)],
           [graftBond (f + 2) covalentSingle src (graftAtom (forceH a0) src (f + 1))],
           rfl, rfl⟩

/-! ## The loop over the hydrogen index list -/

theorem runIds_O_extends {abp : List ((ℤ × ℤ × ℤ) × Atom)} :
    ∀ (ids : List Nat) (st out : MolComplex × MolComplex × Nat),
      runIds abp st ids = some out →
      ∃ nas nbs, out.1.atoms = st.1.atoms ++ nas ∧ out.1.bonds = st.1.bonds ++ nbs := by
  intro ids
  induction ids with
  | nil =>
    intro st out h
    simp only [runIds, Option.some.injEq] at h
    subst h
    exact ⟨[], [], by simp, by simp⟩
  | cons i rest ih =>
    intro st out h
    simp only [runIds] at h
    cases hs : stepH abp st i with
    | none => rw [hs] at h; simp at h
    | some st2 =>
      rw [hs] at h
      obtain ⟨nas1, nbs1, ha1, hb1⟩ := stepH_O_extends hs
      obtain ⟨nas2, nbs2, ha2, hb2⟩ := ih st2 out h
      exact ⟨nas1 ++ nas2, nbs1 ++ nbs2,
             by rw [ha2, ha1, List.append_assoc],
             by rw [hb2, hb1, List.append_assoc]⟩

theorem runIds_isSome_iff {abp : List ((ℤ × ℤ × ℤ) × Atom)} :
    ∀ (ids : List Nat) (O R : MolComplex) (f : Nat),
      (runIds abp (O, R, f) ids).isSome = true ↔ ∀ i ∈ ids, i < R.atoms.length := by
  intro ids
  induction ids with
  | nil =>
    intro O R f
    simp [runIds]
  | cons i rest ih =>
    intro O R f
    simp only [runIds]
    cases hs : stepH abp (O, R, f) i with
    | none =>
      have hg : R.atoms.get? i = none := stepH_none_iff.mp hs
      have hlen : R.atoms.length ≤ i := List.get?_eq_none.mp hg
      simp only [Option.isSome_none, Bool.false_eq_true, false_iff]
      intro hall
      exact absurd (hall i (List.mem_cons_self i rest)) (by omega)
    | some st2 =>
      obtain ⟨a0, hg, hatoms⟩ := stepH_R_atoms hs
      have hlen : i < R.atoms.length := (List.get?_eq_some.mp hg).1
      have hst2 : st2 = (st2.1, st2.2.1, st2.2.2) := rfl
      have hlen2 : st2.2.1.atoms.length = R.atoms.length := by
        rw [hatoms, List.length_set]
      constructor
      · intro hsome j hj
        rcases List.mem_cons.mp hj with rfl | hjr
        · exact hlen
        · have := (ih st2.1 st2.2.1 st2.2.2).mp hsome j hjr
          omega
      · intro hall
        refine (ih st2.1 st2.2.1 st2.2.2).mpr ?_
        intro j hj
        have := hall j (List.mem_cons_of_mem i hj)
        omega

/-! ## The position index as a dictionary -/

theorem lookupABP_aux {k : ℤ × ℤ × ℤ} {a : Atom} :
    ∀ (l : List ((ℤ × ℤ × ℤ) × Atom)) (acc : Option Atom),
      l.foldl (fun acc p => if p.1 = k then some p.2 else acc) acc = some a →
      (k, a) ∈ l ∨ acc = some a := by
  intro l
  induction l with
  | nil =>
    intro acc h
    exact Or.inr h
  | cons p t ih =>
    intro acc h
    rw [List.foldl_cons] at h
    rcases ih _ h with hmem | hstep
    · exact Or.inl (List.mem_cons_of_mem p hmem)
    · by_cases hk : p.1 = k
      · rw [if_pos hk] at hstep
        have ha : p.2 = a := Option.some.inj hstep
        have : p = (k, a) := by
          rw [Prod.ext_iff]
          exact ⟨hk, ha⟩
        rw [← this]
        exact Or.inl (List.mem_cons_self p t)
      · rw [if_neg hk] at hstep
        exact Or.inr hstep

theorem lookupABP_mem {abp : List ((ℤ × ℤ × ℤ) × Atom)} {k : ℤ × ℤ × ℤ} {a : Atom}
    (h : lookupABP abp k = some a) : (k, a) ∈ abp := by
  unfold lookupABP at h
  rcases lookupABP_aux abp none h with hmem | habs
  · exact hmem
  · exact Option.noConfusion habs

theorem buildABP_mem {O : MolComplex} {k : ℤ × ℤ × ℤ} {a : Atom}
    (h : (k, a) ∈ buildABP O) : a ∈ O.atoms := by
  unfold buildABP at h
  obtain ⟨x, hx, heq⟩ := List.mem_map.mp h
  simp only [Prod.mk.injEq] at heq
  rw [← heq.2]
  exact hx

/-! ## The new-hydrogen index collection -/

theorem collectNew_mem : ∀ (lines : List String) (k i : Nat),
    i ∈ collectNew lines k ↔
      ∃ j, (∃ l, lines.get? j = some l ∧ isNewRaw (l ++ nlStr) = true) ∧ i = k + j := by
  intro lines
  induction lines with
  | nil =>
    intro k i
    simp [collectNew]
  | cons l rest ih =>
    intro k i
    simp only [collectNew]
    by_cases hn : isNewRaw (l ++ nlStr) = true
    · rw [if_pos hn]
      constructor
      · intro hmem
        rcases List.mem_cons.mp hmem with rfl | hmem2
        · exact ⟨0, ⟨l, rfl, hn⟩, by omega⟩
        · obtain ⟨j, ⟨l2, hget, hnew⟩, hi⟩ := (ih (k+1) i).mp hmem2
          exact ⟨j + 1, ⟨l2, hget, hnew⟩, by omega⟩
      · rintro ⟨j, ⟨l2, hget, hnew⟩, hi⟩
        cases j with
        | zero =>
          subst hi
          exact List.mem_cons_self _ _
        | succ j2 =>
          have hget2 : rest.get? j2 = some l2 := hget
          exact List.mem_cons_of_mem _
            ((ih (k+1) i).mpr ⟨j2, ⟨l2, hget2, hnew⟩, by omega⟩)
    · rw [if_neg hn]
      constructor
      · intro hmem
        obtain ⟨j, ⟨l2, hget, hnew⟩, hi⟩ := (ih (k+1) i).mp hmem
        exact ⟨j + 1, ⟨l2, hget, hnew⟩, by omega⟩
      · rintro ⟨j, ⟨l2, hget, hnew⟩, hi⟩
        cases j with
        | zero =>
          have hl : l = l2 := Option.some.inj hget
          rw [← hl] at hnew
          exact absurd hnew hn
        | succ j2 =>
          have hget2 : rest.get? j2 = some l2 := hget
          exact (ih (k+1) i).mpr ⟨j2, ⟨l2, hget2, hnew⟩, by omega⟩

/-! ## The adapter and the driver -/

theorem call_Reduce_sentinel {parse : List String → Option MolComplex} {buf : String}
    {run : EngineRun} (h : run.exitCode < 0) :
    call_Reduce parse buf run =
      (run.chunks.foldl (fun s c => s ++ c) buf, ReduceResult.sentinel) := by
  simp only [call_Reduce]
  rw [if_pos h]

theorem call_Reduce_ok {parse : List String → Option MolComplex} {buf : String}
    {run : EngineRun} (h : ¬ run.exitCode < 0) :
    call_Reduce parse buf run =
      (run.chunks.foldl (fun s c => s ++ c) buf,
       ReduceResult.ok
         (parse ((pySplitlines (run.chunks.foldl (fun s c => s ++ c) buf)).filter isStructural))
         ((pySplitlines (run.chunks.foldl (fun s c => s ++ c) buf)).filter isStructural)
         (collectNew ((pySplitlines (run.chunks.foldl (fun s c => s ++ c) buf)).filter isStructural) 0)) := by
  simp only [call_Reduce]
  rw [if_neg h]

/-! ## Claim theorems -/

/-- C1 counterexample.  The claim's two universal parts both fail:
`ceP1`/`ceP2` differ in each coordinate by less than `1/100` of the
quantization unit (`1/5000 = (1/100)·(1/50)`) yet get different keys
(the perturbation crosses the quantization boundary at `0.02`), and
`ceQ1`/`ceQ2` differ by more than one quantization unit (`0.0202 >
1/50`) yet get the same key (truncation toward zero merges the two
cells adjacent to zero). -/
theorem C1_position_key_counterexample :
    (|ceP1.position.x - ceP2.position.x| < 1/5000
     ∧ |ceP1.position.y - ceP2.position.y| < 1/5000
     ∧ |ceP1.position.z - ceP2.position.z| < 1/5000
     ∧ get_position_key ceP1 ≠ get_position_key ceP2)
    ∧ (1/50 < |ceQ1.position.x - ceQ2.position.x|
     ∧ ceQ1.position ≠ ceQ2.position
     ∧ get_position_key ceQ1 = get_position_key ceQ2) := by
  decide

/-- C1 (amended).  The position key rounds each coordinate to 4 decimal
places, multiplies by 50, and truncates to integer.  Coordinates that
round identically at 4 decimals give equal keys; coordinates differing
by less than `1/100` of the quantization unit give key components
differing by at most 1 (equality can fail only when the perturbation
crosses a quantization boundary); and positions differing by more than
one quantization unit in a coordinate whose two values lie on the same
side of zero get distinct keys. -/
theorem C1_position_key_amended :
    (∀ a : Atom, get_position_key a =
        (pytrunc (50 * round4 a.position.x),
         pytrunc (50 * round4 a.position.y),
         pytrunc (50 * round4 a.position.z)))
    ∧ (∀ a b : Atom,
        round4 a.position.x = round4 b.position.x →
        round4 a.position.y = round4 b.position.y →
        round4 a.position.z = round4 b.position.z →
        get_position_key a = get_position_key b)
    ∧ (∀ x y : ℚ, |x - y| < 1/5000 → |keyCoord x - keyCoord y| ≤ 1)
    ∧ (∀ a b : Atom,
        (sameSignSep a.position.x b.position.x
         ∨ sameSignSep a.position.y b.position.y
         ∨ sameSignSep a.position.z b.position.z) →
        get_position_key a ≠ get_position_key b) := by
  refine ⟨fun a => rfl, ?_, ?_, ?_⟩
  · intro a b h1 h2 h3
    unfold get_position_key
    rw [keyCoord_congr h1, keyCoord_congr h2, keyCoord_congr h3]
  · intro x y h
    exact keyCoord_close h
  · intro a b hsep heq
    unfold get_position_key at heq
    simp only [Prod.mk.injEq] at heq
    obtain ⟨h1, h2, h3⟩ := heq
    rcases hsep with hs | hs | hs
    · exact keyCoord_sep hs.1 hs.2 h1
    · exact keyCoord_sep hs.1 hs.2 h2
    · exact keyCoord_sep hs.1 hs.2 h3

/-- C1 witness: the amended theorem applied at concrete inputs —
`0.01999`/`0.02001` round alike and share a key; `0` and `0.0001` are
within tolerance and their key components differ by at most 1; `0` and
`0.03` are same-sign separated and get distinct keys. -/
theorem C1_position_key_amended_witness :
    (round4 ceR1.position.x = round4 ceR2.position.x
     ∧ round4 ceR1.position.y = round4 ceR2.position.y
     ∧ round4 ceR1.position.z = round4 ceR2.position.z
     ∧ get_position_key ceR1 = get_position_key ceR2)
    ∧ (|(0 : ℚ) - 1/10000| < 1/5000 ∧ |keyCoord 0 - keyCoord (1/10000)| ≤ 1)
    ∧ (sameSignSep ceS1.position.x ceS2.position.x
       ∧ get_position_key ceS1 ≠ get_position_key ceS2) :=
  ⟨⟨by decide, by decide, by decide,
    C1_position_key_amended.2.1 ceR1 ceR2 (by decide) (by decide) (by decide)⟩,
   ⟨by decide, C1_position_key_amended.2.2.1 0 (1/10000) (by decide)⟩,
   ⟨by decide, C1_position_key_amended.2.2.2 ceS1 ceS2 (Or.inl (by decide))⟩⟩

/-- C2.  First part: a successful run of the reconciliation engine only
ever appends to the original complex's atom and bond lists, so every
pre-existing atom and bond survives unmodified.  Second part: a step
whose hydrogen is skipped — no partner found, partner beyond the
threshold, or an orphaned position key — leaves the original complex
exactly unchanged. -/
theorem C2_frame_preservation :
    (∀ (abp : List ((ℤ × ℤ × ℤ) × Atom)) (O R : MolComplex) (f : Nat) (ids : List Nat)
       (out : MolComplex × MolComplex × Nat),
       match_and_update abp O R f ids = some out →
       ∃ newAtoms newBonds,
         out.1.atoms = O.atoms ++ newAtoms ∧ out.1.bonds = O.bonds ++ newBonds)
    ∧ (∀ (abp : List ((ℤ × ℤ × ℤ) × Atom)) (O R : MolComplex) (f i : Nat) (a0 : Atom)
         (ob : Option Atom) (d : ℚ) (out : MolComplex × MolComplex × Nat),
         R.atoms.get? i = some a0 →
         get_closest_heavy_atom_in_residue (setAtomAt R i (forceH a0)) (forceH a0) = (ob, d) →
         (ob = none ∨ 4 < d ∨ partnerLookup abp ob = none) →
         stepH abp (O, R, f) i = some out →
         out.1 = O) := by
  constructor
  · intro abp O R f ids out h
    exact runIds_O_extends ids (O, R, f) out h
  · intro abp O R f i a0 ob d out hget hcl hskip hstep
    obtain ⟨a0', hg', hc⟩ := stepH_shape hstep
    have ha0 : a0' = a0 := Option.some.inj (hg'.symm.trans hget)
    subst ha0
    rcases hc with ⟨d2, hcl2, rfl⟩ | ⟨b2, d2, hcl2, hd2, rfl⟩ |
      ⟨b2, d2, hcl2, hd2, hlk2, rfl⟩ | ⟨b2, d2, src2, hcl2, hd2, hlk2, rfl⟩
    · rfl
    · rfl
    · rfl
    · rw [hcl] at hcl2
      simp only [Prod.mk.injEq] at hcl2
      obtain ⟨rfl, rfl⟩ := hcl2
      rcases hskip with h | h | h
      · exact Option.noConfusion h
      · exact absurd h hd2
      · have h2 : lookupABP abp (get_position_key b2) = none := h
        rw [hlk2] at h2
        exact Option.noConfusion h2

/-- C2 witness: the frame property applied to a one-hydrogen run on
concrete complexes, and the skip property applied to an orphan-key step
(empty position index). -/
theorem C2_frame_preservation_witness :
    (match_and_update (buildABP exO) exO exR 100 [1] = some exOut
     ∧ ∃ newAtoms newBonds,
         exOut.1.atoms = exO.atoms ++ newAtoms ∧ exOut.1.bonds = exO.bonds ++ newBonds)
    ∧ (exR.atoms.get? 1 = some exH
       ∧ get_closest_heavy_atom_in_residue (setAtomAt exR 1 (forceH exH)) (forceH exH)
           = (some exB, 1)
       ∧ stepH [] (exO, exR, 100) 1 = some exSkipOut
       ∧ exSkipOut.1 = exO) :=
  ⟨⟨by decide,
    C2_frame_preservation.1 (buildABP exO) exO exR 100 [1] exOut (by decide)⟩,
   ⟨by decide, by decide, by decide,
    C2_frame_preservation.2 [] exO exR 100 1 exH (some exB) 1 exSkipOut
      (by decide) (by decide) (Or.inr (Or.inr (by decide))) (by decide)⟩⟩

/-- C3.  When a hydrogen is successfully matched — a partner within the
threshold whose key resolves to an original atom `src` — the atom
appended to the original complex duplicates the reparsed hydrogen's
position and serial, its symbol is the forced `"H"`, and its display
mode, heteroatom flag, selection flag, B-factor and occupancy each equal
`src`'s, not the reparsed atom's. -/
theorem C3_metadata_from_source :
    ∀ (abp : List ((ℤ × ℤ × ℤ) × Atom)) (O R : MolComplex) (f i : Nat) (a0 b src : Atom)
      (d : ℚ) (out : MolComplex × MolComplex × Nat),
      R.atoms.get? i = some a0 →
      get_closest_heavy_atom_in_residue (setAtomAt R i (forceH a0)) (forceH a0) = (some b, d) →
      ¬ 4 < d →
      lookupABP abp (get_position_key b) = some src →
      stepH abp (O, R, f) i = some out →
      ∃ na, out.1.atoms = O.atoms ++ [na]
        ∧ na.position = a0.position ∧ na.serial = a0.serial ∧ na.symbol = hydrogenSym
        ∧ na.display_mode = src.display_mode ∧ na.is_het = src.is_het
        ∧ na.selected = src.selected ∧ na.bfactor = src.bfactor
        ∧ na.occupancy = src.occupancy := by
  intro abp O R f i a0 b src d out hget hcl hd hlk hstep
  obtain ⟨a0', hg', hc⟩ := stepH_shape hstep
  have ha0 : a0 = a0' := Option.some.inj (hget.symm.trans hg')
  subst ha0
  rcases hc with ⟨d2, hcl2, rfl⟩ | ⟨b2, d2, hcl2, hd2, rfl⟩ |
    ⟨b2, d2, hcl2, hd2, hlk2, rfl⟩ | ⟨b2, d2, src2, hcl2, hd2, hlk2, rfl⟩
  · rw [hcl] at hcl2
    simp at hcl2
  · rw [hcl] at hcl2
    simp only [Prod.mk.injEq, Option.some.injEq] at hcl2
    obtain ⟨rfl, rfl⟩ := hcl2
    exact absurd hd2 hd
  · rw [hcl] at hcl2
    simp only [Prod.mk.injEq, Option.some.injEq] at hcl2
    obtain ⟨rfl, rfl⟩ := hcl2
    rw [hlk] at hlk2
    exact Option.noConfusion hlk2
  · rw [hcl] at hcl2
    simp only [Prod.mk.injEq, Option.some.injEq] at hcl2
    obtain ⟨rfl, rfl⟩ := hcl2
    have hsrc : src = src2 := Option.some.inj (hlk.symm.trans hlk2)
    subst hsrc
    exact ⟨graftAtom (forceH a0) src (f + 1), rfl, rfl, rfl, rfl, rfl, rfl, rfl, rfl, rfl⟩

/-- C3 witness: the metadata-propagation theorem applied to the concrete
graft scenario (`exH` matched to `exB`, resolved to `exSrc`). -/
theorem C3_metadata_from_source_witness :
    exR.atoms.get? 1 = some exH
    ∧ get_closest_heavy_atom_in_residue (setAtomAt exR 1 (forceH exH)) (forceH exH)
        = (some exB, 1)
    ∧ ¬ (4 : ℚ) < 1
    ∧ lookupABP (buildABP exO) (get_position_key exB) = some exSrc
    ∧ stepH (buildABP exO) (exO, exR, 100) 1 = some exOut
    ∧ ∃ na, exOut.1.atoms = exO.atoms ++ [na]
        ∧ na.position = exH.position ∧ na.serial = exH.serial ∧ na.symbol = hydrogenSym
        ∧ na.display_mode = exSrc.display_mode ∧ na.is_het = exSrc.is_het
        ∧ na.selected = exSrc.selected ∧ na.bfactor = exSrc.bfactor
        ∧ na.occupancy = exSrc.occupancy :=
  ⟨by decide, by decide, by decide, by decide, by decide,
   C3_metadata_from_source (buildABP exO) exO exR 100 1 exH exB exSrc 1 exOut
     (by decide) (by decide) (by decide) (by decide) (by decide)⟩

/-- C4.  For a matched hydrogen, with the position index built over the
original complex `O`, disjoint object identities between `O` and the
reparsed complex `R`, and fresh identities beyond `R`'s: the bond
appended to `O` has endpoint 1 the original heavy atom `src` and
endpoint 2 the newly created hydrogen; `src` is an atom of `O` and the
new atom is appended to `O`, while neither endpoint identity occurs
among the reparsed complex's atoms; and both the new atom and the new
bond are registered on `src`'s residue. -/
theorem C4_bond_endpoints_in_original :
    ∀ (O R : MolComplex) (f i : Nat) (a0 b src : Atom) (d : ℚ)
      (out : MolComplex × MolComplex × Nat),
      (∀ x ∈ O.atoms, ∀ y ∈ R.atoms, x.aid ≠ y.aid) →
      (∀ y ∈ R.atoms, y.aid < f) →
      R.atoms.get? i = some a0 →
      get_closest_heavy_atom_in_residue (setAtomAt R i (forceH a0)) (forceH a0) = (some b, d) →
      ¬ 4 < d →
      lookupABP (buildABP O) (get_position_key b) = some src →
      stepH (buildABP O) (O, R, f) i = some out →
      ∃ na nb, out.1.atoms = O.atoms ++ [na] ∧ out.1.bonds = O.bonds ++ [nb]
        ∧ nb.atom1 = src.aid ∧ nb.atom2 = na.aid
        ∧ src ∈ O.atoms ∧ na ∈ out.1.atoms
        ∧ (∀ y ∈ out.2.1.atoms, y.aid ≠ src.aid ∧ y.aid ≠ na.aid)
        ∧ na.residue = src.residue ∧ nb.residue = src.residue := by
  intro O R f i a0 b src d out hdisj hfresh hget hcl hd hlk hstep
  obtain ⟨a0', hg', hc⟩ := stepH_shape hstep
  have ha0 : a0 = a0' := Option.some.inj (hget.symm.trans hg')
  subst ha0
  rcases hc with ⟨d2, hcl2, rfl⟩ | ⟨b2, d2, hcl2, hd2, rfl⟩ |
    ⟨b2, d2, hcl2, hd2, hlk2, rfl⟩ | ⟨b2, d2, src2, hcl2, hd2, hlk2, rfl⟩
  · rw [hcl] at hcl2
    simp at hcl2
  · rw [hcl] at hcl2
    simp only [Prod.mk.injEq, Option.some.injEq] at hcl2
    obtain ⟨rfl, rfl⟩ := hcl2
    exact absurd hd2 hd
  · rw [hcl] at hcl2
    simp only [Prod.mk.injEq, Option.some.injEq] at hcl2
    obtain ⟨rfl, rfl⟩ := hcl2
    rw [hlk] at hlk2
    exact Option.noConfusion hlk2
  · rw [hcl] at hcl2
    simp only [Prod.mk.injEq, Option.some.injEq] at hcl2
    obtain ⟨rfl, rfl⟩ := hcl2
    have hsrc : src = src2 := Option.some.inj (hlk.symm.trans hlk2)
    subst hsrc
    have hsrcmem : src ∈ O.atoms := buildABP_mem (lookupABP_mem hlk)
    have ha0mem : a0 ∈ R.atoms := List.get?_mem hget
    refine ⟨graftAtom (forceH a0) src (f + 1),
            graftBond (f + 2) covalentSingle src (graftAtom (forceH a0) src (f + 1)),
            rfl, rfl, rfl, rfl, hsrcmem, by simp [graftInto], ?_, rfl, rfl⟩
    intro y hy
    have hy2 : y ∈ R.atoms ∨ y = forceH a0 := List.mem_or_eq_of_mem_set hy
    have hylt : y.aid < f := by
      rcases hy2 with hmem | rfl
      · exact hfresh y hmem
      · exact hfresh a0 ha0mem
    have hyR : src.aid ≠ y.aid := by
      rcases hy2 with hmem | rfl
      · exact hdisj src hsrcmem y hmem
      · exact hdisj src hsrcmem a0 ha0mem
    constructor
    · exact hyR.symm
    · show y.aid ≠ f + 1
      omega

/-- C4 witness: the endpoint theorem applied to the concrete graft
scenario, where identities of `exO` (`1`) and `exR` (`21`, `22`) are
disjoint and `100` exceeds every live identity. -/
theorem C4_bond_endpoints_in_original_witness :
    (∀ x ∈ exO.atoms, ∀ y ∈ exR.atoms, x.aid ≠ y.aid)
    ∧ (∀ y ∈ exR.atoms, y.aid < 100)
    ∧ (∃ na nb, exOut.1.atoms = exO.atoms ++ [na] ∧ exOut.1.bonds = exO.bonds ++ [nb]
        ∧ nb.atom1 = exSrc.aid ∧ nb.atom2 = na.aid
        ∧ exSrc ∈ exO.atoms ∧ na ∈ exOut.1.atoms
        ∧ (∀ y ∈ exOut.2.1.atoms, y.aid ≠ exSrc.aid ∧ y.aid ≠ na.aid)
        ∧ na.residue = exSrc.residue ∧ nb.residue = exSrc.residue) :=
  ⟨by decide, by decide,
   C4_bond_endpoints_in_original exO exR 100 1 exH exB exSrc 1 exOut
     (by decide) (by decide) (by decide) (by decide) (by decide) (by decide) (by decide)⟩

/-- C5 counterexample.  The search initializes its minimum to 10000.0,
and only candidates *strictly* closer are kept: a residue whose sole
candidate sits at distance exactly 10000 (squared distance `bigD`) is a
nonempty candidate set, yet the search returns no partner — refuting
the claim that the minimizing candidate is returned whenever the
candidate set is nonempty. -/
theorem C5_partner_search_counterexample :
    exFar ∈ residueAtoms exFarR exFarH.residue
    ∧ exFar.aid ≠ exFarH.aid ∧ exFar.symbol ≠ hydrogenSym
    ∧ get_closest_heavy_atom_in_residue exFarR exFarH = (none, bigD) := by
  decide

/-- C5 (amended).  The partner search returns the candidate (same
residue, not the hydrogen itself, symbol not `"H"`) minimizing the
distance to the hydrogen, provided some candidate lies strictly within
the sentinel initial minimum of 10000 (distances compared squared, so
`bigD = 10000^2`); when it returns a partner, that partner is a
candidate at minimal distance, strictly below the sentinel.  If no
partner is returned every candidate is at distance at least 10000 — in
particular this covers the empty candidate set — and the hydrogen is
skipped with both complexes unchanged except the forced symbol. -/
theorem C5_partner_search_amended :
    (∀ (c : MolComplex) (atom b : Atom) (d : ℚ),
       get_closest_heavy_atom_in_residue c atom = (some b, d) →
       b ∈ residueAtoms c atom.residue ∧ b.aid ≠ atom.aid ∧ b.symbol ≠ hydrogenSym
       ∧ d = distanceSq b.position atom.position ∧ d < bigD
       ∧ ∀ a ∈ residueAtoms c atom.residue, a.aid ≠ atom.aid → a.symbol ≠ hydrogenSym →
           d ≤ distanceSq a.position atom.position)
    ∧ (∀ (c : MolComplex) (atom : Atom) (d : ℚ),
       get_closest_heavy_atom_in_residue c atom = (none, d) →
       ∀ a ∈ residueAtoms c atom.residue, a.aid ≠ atom.aid → a.symbol ≠ hydrogenSym →
         bigD ≤ distanceSq a.position atom.position)
    ∧ (∀ (abp : List ((ℤ × ℤ × ℤ) × Atom)) (O R : MolComplex) (f i : Nat) (a0 : Atom) (d : ℚ),
       R.atoms.get? i = some a0 →
       get_closest_heavy_atom_in_residue (setAtomAt R i (forceH a0)) (forceH a0) = (none, d) →
       stepH abp (O, R, f) i = some (O, setAtomAt R i (forceH a0), f)) := by
  refine ⟨?_, ?_, ?_⟩
  · intro c atom b d h
    obtain ⟨hmem, hcand, hd, hlt, hmin⟩ := closest_some_spec h
    exact ⟨hmem, hcand.1, hcand.2, hd, hlt,
           fun a ha h1 h2 => hmin a ha ⟨h1, h2⟩⟩
  · intro c atom d h
    obtain ⟨_, hall⟩ := closest_none_spec h
    exact fun a ha h1 h2 => hall a ha ⟨h1, h2⟩
  · intro abp O R f i a0 d hget hcl
    rw [stepH_eq]
    simp only [hget, hcl]

/-- C5 witness: the amended search contract applied at concrete inputs —
a found partner (`exB` at squared distance 1), the all-too-far outcome
on `exFarR`, and the skip step it induces. -/
theorem C5_partner_search_amended_witness :
    (get_closest_heavy_atom_in_residue (setAtomAt exR 1 (forceH exH)) (forceH exH)
        = (some exB, 1)
     ∧ exB ∈ residueAtoms (setAtomAt exR 1 (forceH exH)) (forceH exH).residue
     ∧ exB.aid ≠ (forceH exH).aid ∧ exB.symbol ≠ hydrogenSym
     ∧ (1 : ℚ) = distanceSq exB.position (forceH exH).position ∧ (1 : ℚ) < bigD
     ∧ ∀ a ∈ residueAtoms (setAtomAt exR 1 (forceH exH)) (forceH exH).residue,
         a.aid ≠ (forceH exH).aid → a.symbol ≠ hydrogenSym →
           (1 : ℚ) ≤ distanceSq a.position (forceH exH).position)
    ∧ (get_closest_heavy_atom_in_residue exFarR exFarH = (none, bigD)
       ∧ ∀ a ∈ residueAtoms exFarR exFarH.residue,
           a.aid ≠ exFarH.aid → a.symbol ≠ hydrogenSym →
             bigD ≤ distanceSq a.position exFarH.position)
    ∧ (exFarR.atoms.get? 1 = some exFarH
       ∧ stepH [] (exO, exFarR, 100) 1 = some (exO, setAtomAt exFarR 1 (forceH exFarH), 100)) :=
  ⟨⟨by decide,
    (C5_partner_search_amended.1 (setAtomAt exR 1 (forceH exH)) (forceH exH) exB 1
      (by decide)).1,
    (C5_partner_search_amended.1 (setAtomAt exR 1 (forceH exH)) (forceH exH) exB 1
      (by decide)).2.1,
    (C5_partner_search_amended.1 (setAtomAt exR 1 (forceH exH)) (forceH exH) exB 1
      (by decide)).2.2.1,
    (C5_partner_search_amended.1 (setAtomAt exR 1 (forceH exH)) (forceH exH) exB 1
      (by decide)).2.2.2.1,
    (C5_partner_search_amended.1 (setAtomAt exR 1 (forceH exH)) (forceH exH) exB 1
      (by decide)).2.2.2.2.1,
    (C5_partner_search_amended.1 (setAtomAt exR 1 (forceH exH)) (forceH exH) exB 1
      (by decide)).2.2.2.2.2⟩,
   ⟨by decide,
    C5_partner_search_amended.2.1 exFarR exFarH bigD (by decide)⟩,
   ⟨by decide,
    C5_partner_search_amended.2.2 [] exO exFarR 100 1 exFarH bigD (by decide) (by decide)⟩⟩

/-- C6.  A candidate partner at distance exactly 2.0 (squared distance
4) passes the `dist > 2.0` rejection and a bond to it is created; a
minimum distance beyond 2.0 makes the step skip that hydrogen — the
original complex, the reparsed complex's bonds and the identity counter
are all unchanged (only the symbol assignment remains) — and the loop
continues with the remaining indices rather than aborting. -/
theorem C6_distance_threshold :
    (∀ (abp : List ((ℤ × ℤ × ℤ) × Atom)) (O R : MolComplex) (f i : Nat) (a0 b : Atom)
       (out : MolComplex × MolComplex × Nat),
       R.atoms.get? i = some a0 →
       get_closest_heavy_atom_in_residue (setAtomAt R i (forceH a0)) (forceH a0) = (some b, 4) →
       stepH abp (O, R, f) i = some out →
       ∃ nb, out.2.1.bonds = R.bonds ++ [nb]
         ∧ nb.atom1 = (forceH a0).aid ∧ nb.atom2 = b.aid ∧ nb.kind = covalentSingle)
    ∧ (∀ (abp : List ((ℤ × ℤ × ℤ) × Atom)) (O R : MolComplex) (f i : Nat) (a0 b : Atom)
         (d : ℚ) (rest : List Nat),
         R.atoms.get? i = some a0 →
         get_closest_heavy_atom_in_residue (setAtomAt R i (forceH a0)) (forceH a0) = (some b, d) →
         4 < d →
         stepH abp (O, R, f) i = some (O, setAtomAt R i (forceH a0), f)
         ∧ runIds abp (O, R, f) (i :: rest) = runIds abp (O, setAtomAt R i (forceH a0), f) rest) := by
  constructor
  · intro abp O R f i a0 b out hget hcl hstep
    obtain ⟨a0', hg', hc⟩ := stepH_shape hstep
    have ha0 : a0 = a0' := Option.some.inj (hget.symm.trans hg')
    subst ha0
    rcases hc with ⟨d2, hcl2, rfl⟩ | ⟨b2, d2, hcl2, hd2, rfl⟩ |
      ⟨b2, d2, hcl2, hd2, hlk2, rfl⟩ | ⟨b2, d2, src2, hcl2, hd2, hlk2, rfl⟩
    · rw [hcl] at hcl2
      simp at hcl2
    · rw [hcl] at hcl2
      simp only [Prod.mk.injEq, Option.some.injEq] at hcl2
      obtain ⟨rfl, hd4⟩ := hcl2
      rw [← hd4] at hd2
      exact absurd hd2 (by norm_num)
    · rw [hcl] at hcl2
      simp only [Prod.mk.injEq, Option.some.injEq] at hcl2
      obtain ⟨rfl, _⟩ := hcl2
      exact ⟨mkReduceBond f (forceH a0) b, rfl, rfl, rfl, rfl⟩
    · rw [hcl] at hcl2
      simp only [Prod.mk.injEq, Option.some.injEq] at hcl2
      obtain ⟨rfl, _⟩ := hcl2
      exact ⟨mkReduceBond f (forceH a0) b, rfl, rfl, rfl, rfl⟩
  · intro abp O R f i a0 b d rest hget hcl hd
    have hstep : stepH abp (O, R, f) i = some (O, setAtomAt R i (forceH a0), f) := by
      rw [stepH_eq]
      simp only [hget, hcl]
      rw [if_pos hd]
    refine ⟨hstep, ?_⟩
    simp only [runIds, hstep]

/-- C6 witness: acceptance at squared distance exactly 4 (`exB2` at
`(2,0,0)`) creates the bond; squared distance 9 (`exB3` at `(3,0,0)`)
makes the step skip and the loop continue. -/
theorem C6_distance_threshold_witness :
    (exR2.atoms.get? 1 = some exH2
     ∧ get_closest_heavy_atom_in_residue (setAtomAt exR2 1 (forceH exH2)) (forceH exH2)
         = (some exB2, 4)
     ∧ stepH (buildABP exO) (exO, exR2, 100) 1 = some exOut2
     ∧ ∃ nb, exOut2.2.1.bonds = exR2.bonds ++ [nb]
         ∧ nb.atom1 = (forceH exH2).aid ∧ nb.atom2 = exB2.aid ∧ nb.kind = covalentSingle)
    ∧ (exR3.atoms.get? 1 = some exH3
       ∧ get_closest_heavy_atom_in_residue (setAtomAt exR3 1 (forceH exH3)) (forceH exH3)
           = (some exB3, 9)
       ∧ (4 : ℚ) < 9
       ∧ stepH [] (exO, exR3, 100) 1 = some (exO, setAtomAt exR3 1 (forceH exH3), 100)
       ∧ runIds [] (exO, exR3, 100) [1] = runIds [] (exO, setAtomAt exR3 1 (forceH exH3), 100) []) :=
  ⟨⟨by decide, by decide, by decide,
    C6_distance_threshold.1 (buildABP exO) exO exR2 100 1 exH2 exB2 exOut2
      (by decide) (by decide) (by decide)⟩,
   ⟨by decide, by decide, by decide,
    (C6_distance_threshold.2 [] exO exR3 100 1 exH3 exB3 9 [] (by decide) (by decide) (by decide)).1,
    (C6_distance_threshold.2 [] exO exR3 100 1 exH3 exB3 9 [] (by decide) (by decide) (by decide)).2⟩⟩

/-- C7 (code bug).  The adapter never clears the module-level
`current_output` buffer, so a second invocation's output file contains
the first invocation's structural lines as well: run B alone writes
exactly its own `ATOM` line, but run B executed after run A (threading
the buffer the module-level variable threads) writes run A's line too,
which differs from run B's own lines.  The claim — the file written by
an invocation holds exactly that invocation's structural record lines —
fails at this input. -/
theorem C7_buffer_contamination :
    (call_Reduce pnone "" runB).2 = ReduceResult.ok none ["ATOM two"] []
    ∧ (call_Reduce pnone (call_Reduce pnone "" runA).1 runB).2
        = ReduceResult.ok none ["ATOM one", "ATOM two"] []
    ∧ (["ATOM one", "ATOM two"] : List String) ≠ ["ATOM two"] := by
  decide

/-- C8.  A negative engine exit code makes the adapter return the
sentinel failure pair, which no successful zero-hydrogen outcome equals;
the driver then emits the user-facing error notification, keeps the
original complex unchanged in the returned batch, and processes the
remaining structures exactly as it would have. -/
theorem C8_engine_failure_path :
    ∀ (parse : List String → Option MolComplex) (buf : String) (c : MolComplex)
      (run : EngineRun) (rest : List (MolComplex × EngineRun))
      (oc : Option MolComplex) (fl : List String),
      run.exitCode < 0 →
      (call_Reduce parse buf run).2 = ReduceResult.sentinel
      ∧ ReduceResult.sentinel ≠ ReduceResult.ok oc fl []
      ∧ add_hydrogens parse buf ((c, run) :: rest) =
          (match add_hydrogens parse (run.chunks.foldl (fun s ch => s ++ ch) buf) rest with
           | none => none
           | some (b, cs, ns) => some (b, c :: cs, Note.engineError :: ns)) := by
  intro parse buf c run rest oc fl hneg
  refine ⟨by rw [call_Reduce_sentinel hneg], by simp, ?_⟩
  simp only [add_hydrogens, call_Reduce_sentinel hneg]

/-- C8 witness: the failure path applied to a concrete one-structure
batch whose engine run exits with code `-1`. -/
theorem C8_engine_failure_path_witness :
    runFail.exitCode < 0
    ∧ (call_Reduce pnone "" runFail).2 = ReduceResult.sentinel
    ∧ ReduceResult.sentinel ≠ ReduceResult.ok none [] []
    ∧ add_hydrogens pnone "" [(exO, runFail)] =
        (match add_hydrogens pnone (runFail.chunks.foldl (fun s ch => s ++ ch) "") [] with
         | none => none
         | some (b, cs, ns) => some (b, exO :: cs, Note.engineError :: ns)) :=
  ⟨by decide,
   C8_engine_failure_path pnone "" exO runFail [] none [] (by decide)⟩

/-- C9.  An index is recorded in the adapter's hydrogen-index list
exactly when the zero-based line at that index in the output file —
reread with its newline terminator, as `readlines` yields it — has
length exceeding 84 characters and ends with the marker token `new`
before the terminator; hence every recorded index is that line's
position among all lines of the file. -/
theorem C9_new_hydrogen_indices :
    ∀ (lines : List String) (i : Nat),
      i ∈ collectNew lines 0 ↔
        ∃ l, lines.get? i = some l
          ∧ 84 < (l ++ nlStr).data.length
          ∧ pyEndsWith (l ++ nlStr) newMarker = true := by
  intro lines i
  rw [collectNew_mem lines 0 i]
  constructor
  · rintro ⟨j, ⟨l, hget, hnew⟩, hi⟩
    have hij : i = j := by omega
    subst hij
    unfold isNewRaw at hnew
    by_cases hlen : 84 < (l ++ nlStr).data.length
    · rw [if_pos hlen] at hnew
      exact ⟨l, hget, hlen, hnew⟩
    · rw [if_neg hlen] at hnew
      exact Bool.noConfusion hnew
  · rintro ⟨l, hget, hlen, hend⟩
    refine ⟨i, ⟨l, hget, ?_⟩, by omega⟩
    unfold isNewRaw
    rw [if_pos hlen]
    exact hend

/-- C9 witness: in a two-line file whose second line is an 84-character
record ending in `new` (85 with the terminator), index 1 — and only
what the characterization admits — is recorded. -/
theorem C9_new_hydrogen_indices_witness :
    1 ∈ collectNew ["ATOM x", longLine] 0
    ∧ collectNew ["ATOM x", longLine] 0 = [1] :=
  ⟨(C9_new_hydrogen_indices ["ATOM x", longLine] 1).mpr
     ⟨longLine, by decide, by decide, by decide⟩,
   by decide⟩

/-- C10.  The reconciliation engine indexes the reparsed structure's
atom list with no bounds check, so it succeeds exactly when every index
in the hydrogen-index list is strictly below the reparsed structure's
atom count; a list containing any index at or beyond that count makes
the whole operation fail (`none`, the modelled `IndexError`) instead of
skipping the entry. -/
theorem C10_unchecked_indexing :
    ∀ (abp : List ((ℤ × ℤ × ℤ) × Atom)) (O R : MolComplex) (f : Nat) (ids : List Nat),
      (match_and_update abp O R f ids).isSome = true ↔ ∀ i ∈ ids, i < R.atoms.length := by
  intro abp O R f ids
  exact runIds_isSome_iff ids O R f

/-- C10 witness: on the two-atom reparsed complex `exR`, index list
`[1]` succeeds while `[2]` (one past the end) fails with `none`. -/
theorem C10_unchecked_indexing_witness :
    (match_and_update (buildABP exO) exO exR 100 [1]).isSome = true
    ∧ match_and_update (buildABP exO) exO exR 100 [2] = none := by
  constructor
  · exact (C10_unchecked_indexing (buildABP exO) exO exR 100 [1]).mpr (by decide)
  · have h2 : ¬ ((match_and_update (buildABP exO) exO exR 100 [2]).isSome = true) := by
      rw [C10_unchecked_indexing (buildABP exO) exO exR 100 [2]]
      decide
    cases hm : match_and_update (buildABP exO) exO exR 100 [2] with
    | none => rfl
    | some v =>
      rw [hm] at h2
      simp at h2

end ReduceVerification
